import Mathlib

/-!
# Verification of the OllamaCode response-processing and history-pruning engine

This file gives a shallow embedding, in Lean 4, of the parts of the
OllamaCode repository that the verified claims are about:

* `ollamacode/conversation.py` — `Message`, `ConversationHistory`,
  `estimate_tokens`, `_adjust_importance`, `_prune_history`, `add_message`;
* `ollamacode/security.py` — `SecurityManager.is_command_safe` and
  `SecurityManager.safe_web_request`;
* `ollamacode/tools.py` — `ToolsFramework._sanitize_path`, `file_read` and
  `python_run`;
* `ollamacode/utils.py` — `extract_tool_calls`;
* `ollamacode/client.py` — `OllamaCode.send_request` and `_trim_history`.

Modelling conventions:

* Python `str` is modelled by Lean `String` / `List Char`; the helpers used
  by the code (`lower`, `strip`, substring membership, `startswith`) are
  re-implemented on `List Char` with Python's semantics.
* Python `int` is `Int` (arbitrary precision, no overflow).
* Python `float` importance values and combined scores are modelled exactly
  as rationals (`ℚ`); every float literal appearing in the source
  (`1.0, 1.3, 1.5, 1.6, 1.7, 0.5`) and every position factor is an exact
  rational, so the model coincides with the IEEE behaviour on the concrete
  runs used below.
* Python object identity for `Message` is modelled by tagging each message
  with a unique `id` assigned at `add_message` time; `list.remove`, which
  compares by identity for these objects, becomes `List.erase` on the
  tagged values.
* Fallible operations return `Except`/`Option`; functions that in Python
  touch the outside world (filesystem, network, subprocesses) take that
  world as an explicit oracle argument.
-/

/-! ## Python string primitives -/

/-- Python `str.lower` (ASCII case folding, which is all the source relies on). -/
def pyLower (s : List Char) : List Char := s.map Char.toLower

/-- The characters Python `str.strip()` removes by default. -/
def isPyWhitespace (c : Char) : Bool :=
  c = ' ' ∨ c = '\t' ∨ c = '\n' ∨ c = '\r' ∨ c = '\x0b' ∨ c = '\x0c'

/-- Python `str.strip()` with no argument. -/
def pyStrip (s : List Char) : List Char :=
  (s.dropWhile isPyWhitespace).reverse.dropWhile isPyWhitespace |>.reverse

/-- Does `pat` occur at the start of `s`?  (`str.startswith`). -/
def pyStartsWith (pat s : List Char) : Bool := pat.isPrefixOf s

/-- Python substring membership `pat in s`. -/
def pyContains (pat s : List Char) : Bool :=
  s.tails.any (fun t => pat.isPrefixOf t)

/-- Index of the first occurrence of `pat` in `s`, if any (`str.find`). -/
def pyFind (pat s : List Char) : Option Nat :=
  match s with
  | [] => if pat.isEmpty then some 0 else none
  | _ :: rest =>
    if pat.isPrefixOf s then some 0
    else (pyFind pat rest).map (· + 1)

/-- String versions of the helpers, for readability at the API surface. -/
def strLower (s : String) : String := ⟨pyLower s.data⟩

def strStrip (s : String) : String := ⟨pyStrip s.data⟩

def strContains (s pat : String) : Bool := pyContains pat.data s.data

def strStartsWith (s pat : String) : Bool := pyStartsWith pat.data s.data

/-! ## `ollamacode/conversation.py` -/

/-- `estimate_tokens(text)`: `len(text) // 4`. -/
def estimate_tokens (text : String) : Int := (text.length : Int) / 4

/-- A `Message` object.  `id` models Python object identity (two messages
created by different `add_message` calls are distinct objects even when all
their fields agree); `tokens` is the `token_estimate` attribute computed at
construction; `importance` is the float attribute, modelled as an exact
rational. -/
structure Msg where
  id : Nat
  role : String
  content : String
  tokens : Int
  importance : ℚ
  deriving DecidableEq, Repr

/-- `ConversationHistory.__init__` state: the message list, the `max_tokens`
budget, the running `current_token_count` cache, plus the id supply used to
model object identity. -/
structure ConversationHistory where
  messages : List Msg
  maxTokens : Int
  currentTokenCount : Int
  nextId : Nat
  deriving DecidableEq, Repr

/-- A fresh history with no system prompt (`ConversationHistory(max_tokens)`
with `system_prompt=None`). -/
def mkHistory (maxTokens : Int) : ConversationHistory :=
  { messages := [], maxTokens := maxTokens, currentTokenCount := 0, nextId := 0 }

/-- `ConversationHistory._adjust_importance`, as a function from the
message's role and content to the final importance.  The source lowercases
the content once and then runs four independent `if` statements, each of
which *assigns* (not multiplies) `message.importance`. -/
def adjust_importance (role content : String) : ℚ :=
  let c := pyLower content.data
  let imp : ℚ := 1
  -- if "```" in content: importance = 1.5
  let imp := if pyContains "```".data c then (3 : ℚ) / 2 else imp
  -- if any(indicator in content for ...): importance = 1.7
  let imp := if pyContains "important".data c ∨ pyContains "remember".data c ∨
      pyContains "note".data c ∨ pyContains "key".data c then (17 : ℚ) / 10 else imp
  -- if len(content) > 1000 and role == "assistant": importance = 1.3
  let imp := if c.length > 1000 ∧ role = "assistant" then (13 : ℚ) / 10 else imp
  -- if role == "assistant" and ("executing tool" in content or "executing bash" in content):
  --     importance = 1.6
  let imp := if role = "assistant" ∧
      (pyContains "executing tool".data c ∨ pyContains "executing bash".data c)
    then (16 : ℚ) / 10 else imp
  imp

/-- Sum of `token_estimate` over a message list. -/
def sumTokens (msgs : List Msg) : Int := (msgs.map Msg.tokens).sum

/-- The eviction loop of `_prune_history` (source lines 119–129): walk the
score-sorted prunable messages; at the top of each iteration stop once
`tokens_removed >= tokens_to_remove`; otherwise remove the message from the
main list (if still present) and account its tokens. -/
def pruneLoop (target : Int) :
    List (Msg × ℚ) → List Msg → Int → Int → List Msg × Int
  | [], msgs, count, _ => (msgs, count)
  | (m, _) :: rest, msgs, count, removed =>
    if removed ≥ target then (msgs, count)
    else if m ∈ msgs then
      pruneLoop target rest (msgs.erase m) (count - m.tokens) (removed + m.tokens)
    else
      pruneLoop target rest msgs count removed

/-- Rational multiplication written on numerators and denominators.  Exactly
`a * b` on ℚ (see `ratMul_eq`); spelled via `Rat.divInt` so that concrete
pruning runs reduce inside the kernel. -/
def ratMul (a b : ℚ) : ℚ := Rat.divInt (a.num * b.num) ((a.den : Int) * (b.den : Int))

/-- Rational addition, exactly `a + b` on ℚ (see `ratAdd_eq`). -/
def ratAdd (a b : ℚ) : ℚ :=
  Rat.divInt (a.num * b.den + b.num * a.den) ((a.den : Int) * (b.den : Int))

/-- Rational division, exactly `a / b` on ℚ (see `ratDiv_eq`). -/
def ratDiv (a b : ℚ) : ℚ := Rat.divInt (a.num * b.den) ((a.den : Int) * b.num)

lemma ratMul_eq (a b : ℚ) : ratMul a b = a * b := by
  unfold ratMul
  rw [Rat.divInt_eq_div]
  push_cast
  conv_rhs => rw [← Rat.num_div_den a, ← Rat.num_div_den b]
  rw [div_mul_div_comm]

lemma ratAdd_eq (a b : ℚ) : ratAdd a b = a + b := by
  unfold ratAdd
  rw [Rat.divInt_eq_div]
  push_cast
  conv_rhs => rw [← Rat.num_div_den a, ← Rat.num_div_den b]
  rw [div_add_div _ _ (Nat.cast_ne_zero.mpr a.den_nz) (Nat.cast_ne_zero.mpr b.den_nz)]
  ring_nf

lemma ratDiv_eq (a b : ℚ) : ratDiv a b = a / b := by
  unfold ratDiv
  rw [Rat.divInt_eq_div]
  push_cast
  conv_rhs => rw [← Rat.num_div_den a, ← Rat.num_div_den b]
  rw [div_eq_mul_inv (a.num / a.den : ℚ), inv_div, div_mul_div_comm]

/-- The scored prunable list of `_prune_history`: each non-system message
paired with `combined_score = importance * (0.5 + 0.5 * i / max(1, n-1))`
where `i` is its index in the prunable subsequence of length `n`.  The
arithmetic uses the kernel-reducible rational operations above, which agree
exactly with `*`, `+`, `/` on ℚ. -/
def scoredPrunable (msgs : List Msg) : List (Msg × ℚ) :=
  let prunable := msgs.filter (fun m => m.role ≠ "system")
  let n := prunable.length
  prunable.enum.map (fun p =>
    (p.2, ratMul p.2.importance
      (ratAdd (mkRat 1 2)
        (ratDiv (ratMul (mkRat 1 2) (mkRat p.1 1)) (mkRat (max 1 (n - 1) : ℕ) 1)))))

/-- `ConversationHistory._prune_history`.  Python's `list.sort` is a stable
sort by `combined_score`; `List.insertionSort` with `≤` on the score is the
same stable order. -/
def prune_history (h : ConversationHistory) : ConversationHistory :=
  if h.messages.length ≤ 2 then h
  else
    let prunable := h.messages.filter (fun m => m.role ≠ "system")
    if prunable.isEmpty then h
    else
      let sorted := (scoredPrunable h.messages).insertionSort (fun a b => a.2 ≤ b.2)
      let target := h.currentTokenCount - h.maxTokens
      let r := pruneLoop target sorted h.messages h.currentTokenCount 0
      { h with messages := r.1, currentTokenCount := r.2 }

/-- `ConversationHistory.add_message(role, content)`: construct the message
(with its token estimate), append it, bump the running count, adjust its
importance, and prune when the count exceeds the budget. -/
def add_message (h : ConversationHistory) (role content : String) : ConversationHistory :=
  let m : Msg :=
    { id := h.nextId, role := role, content := content,
      tokens := estimate_tokens content, importance := adjust_importance role content }
  let h' : ConversationHistory :=
    { h with messages := h.messages ++ [m],
             currentTokenCount := h.currentTokenCount + m.tokens,
             nextId := h.nextId + 1 }
  if h'.currentTokenCount > h.maxTokens then prune_history h' else h'

/-- Run a whole sequence of `add_message` calls. -/
def add_messages (h : ConversationHistory) (calls : List (String × String)) :
    ConversationHistory :=
  calls.foldl (fun acc c => add_message acc c.1 c.2) h

/-! ## Helper lemmas about the pruning pass -/

/-- Erasing a present message lowers the token sum by exactly its tokens. -/
lemma sumTokens_erase {m : Msg} {msgs : List Msg} (hm : m ∈ msgs) :
    sumTokens (msgs.erase m) = sumTokens msgs - m.tokens := by
  have hperm : List.Perm msgs (m :: msgs.erase m) := List.perm_cons_erase hm
  have : sumTokens msgs = sumTokens (m :: msgs.erase m) := by
    unfold sumTokens
    exact List.Perm.sum_eq (List.Perm.map _ hperm)
  simp [sumTokens] at this ⊢
  omega

/-- `List.filter` commutes with erasing an element the filter keeps. -/
lemma filter_erase_of_pos (p : Msg → Bool) (m : Msg) (hp : p m = true) :
    ∀ l : List Msg, (l.erase m).filter p = (l.filter p).erase m := by
  intro l
  induction l with
  | nil => simp
  | cons a t ih =>
    by_cases ha : a = m
    · subst ha
      simp [List.erase_cons_head, List.filter_cons, hp]
    · rw [List.erase_cons_tail (by simp [ha])]
      by_cases hpa : p a = true
      · simp only [List.filter_cons, hpa, if_true]
        rw [List.erase_cons_tail (by simp [ha]), ih]
      · simp only [List.filter_cons, hpa]
        simp only [Bool.false_eq_true, if_false]
        exact ih

/-- A multiset below `a ::ₘ t` that does not contain `a` is below `t`. -/
lemma multiset_le_of_le_cons_not_mem {a : Msg} {s t : Multiset Msg}
    (h : s ≤ a ::ₘ t) (ha : a ∉ s) : s ≤ t := by
  rw [Multiset.le_iff_count] at h ⊢
  intro b
  have hb := h b
  by_cases hba : b = a
  · subst hba
    simp [Multiset.count_eq_zero.mpr ha]
  · rwa [Multiset.count_cons_of_ne hba] at hb

/-- The eviction loop never removes a system message. -/
lemma pruneLoop_preserves_system (target : Int) :
    ∀ (sorted : List (Msg × ℚ)) (msgs : List Msg) (count removed : Int),
    (∀ p ∈ sorted, p.1.role ≠ "system") →
    ∀ m ∈ msgs, m.role = "system" →
      m ∈ (pruneLoop target sorted msgs count removed).1 := by
  intro sorted
  induction sorted with
  | nil => intro msgs count removed _ m hm _; simpa [pruneLoop] using hm
  | cons p rest ih =>
    intro msgs count removed hns m hm hsys
    obtain ⟨x, q⟩ := p
    rw [pruneLoop]
    by_cases hstop : removed ≥ target
    · simpa [hstop] using hm
    · have hxns : x.role ≠ "system" := hns (x, q) (List.mem_cons_self _ _)
      have hmx : m ≠ x := fun he => hxns (he ▸ hsys)
      by_cases hx : x ∈ msgs
      · simp only [hstop, if_false, hx, if_true]
        exact ih _ _ _ (fun p hp => hns p (List.mem_cons_of_mem _ hp))
          m (List.mem_erase_of_ne hmx |>.mpr hm) hsys
      · simp only [hstop, if_false, hx, if_false]
        exact ih _ _ _ (fun p hp => hns p (List.mem_cons_of_mem _ hp)) m hm hsys

/-- Every entry of the sorted scored list is a non-system message. -/
lemma sorted_scored_not_system (msgs : List Msg) :
    ∀ p ∈ (scoredPrunable msgs).insertionSort (fun a b => a.2 ≤ b.2),
      p.1.role ≠ "system" := by
  intro p hp
  have hmem : p ∈ scoredPrunable msgs :=
    (List.perm_insertionSort (fun a b => a.2 ≤ b.2) (scoredPrunable msgs)).mem_iff.mp hp
  unfold scoredPrunable at hmem
  simp only [List.mem_map] at hmem
  obtain ⟨⟨i, m⟩, hq, hpe⟩ := hmem
  have hm : m ∈ msgs.filter (fun m => m.role ≠ "system") := by
    have := List.enum_map_snd (msgs.filter (fun m => m.role ≠ "system"))
    exact this ▸ List.mem_map_of_mem Prod.snd hq
  have := (List.mem_filter.mp hm).2
  subst hpe
  simpa using this

/-- The first components of the sorted scored list are a permutation of the
prunable messages. -/
lemma sorted_scored_map_fst_perm (msgs : List Msg) :
    List.Perm (((scoredPrunable msgs).insertionSort (fun a b => a.2 ≤ b.2)).map Prod.fst)
      (msgs.filter (fun m => m.role ≠ "system")) := by
  have h1 : List.Perm
      (((scoredPrunable msgs).insertionSort (fun a b => a.2 ≤ b.2)).map Prod.fst)
      ((scoredPrunable msgs).map Prod.fst) :=
    List.Perm.map _ (List.perm_insertionSort _ _)
  have h2 : (scoredPrunable msgs).map Prod.fst =
      msgs.filter (fun m => m.role ≠ "system") := by
    unfold scoredPrunable
    rw [List.map_map]
    exact List.enum_map_snd _
  exact h2 ▸ h1

/-- `prune_history` never removes a system message. -/
lemma prune_history_preserves_system (h : ConversationHistory) :
    ∀ m ∈ h.messages, m.role = "system" → m ∈ (prune_history h).messages := by
  intro m hm hsys
  unfold prune_history
  split
  · exact hm
  · dsimp only
    split
    · exact hm
    · exact pruneLoop_preserves_system _ _ _ _ _ (sorted_scored_not_system h.messages) m hm hsys

/-- `add_message` never removes a previously held system message. -/
lemma add_message_preserves_system (h : ConversationHistory) (role content : String) :
    ∀ m ∈ h.messages, m.role = "system" → m ∈ (add_message h role content).messages := by
  intro m hm hsys
  unfold add_message
  by_cases hover : h.currentTokenCount + estimate_tokens content > h.maxTokens
  · simp only [hover, if_true]
    exact prune_history_preserves_system _ m (by simp [hm]) hsys
  · simp only [hover, if_false]
    simp [hm]

/-! ## C1 — system messages survive every pruning -/

/-- C1: for every sequence of `add_message` calls, every message whose role
is `"system"` is still present afterwards — `_prune_history` never removes
a system message, whatever the budget overage or the scores of other
messages. -/
theorem system_messages_never_pruned (h : ConversationHistory)
    (calls : List (String × String)) (m : Msg)
    (hm : m ∈ h.messages) (hsys : m.role = "system") :
    m ∈ (add_messages h calls).messages := by
  induction calls generalizing h with
  | nil => exact hm
  | cons c rest ih =>
    exact ih _ (add_message_preserves_system h c.1 c.2 m hm hsys)

/-- Witness for C1 at a concrete history: a held system message survives two
further pruning-triggering additions. -/
theorem system_messages_never_pruned_witness :
    ((⟨0, "system", "sys prompt!!", 3, 1⟩ : Msg) ∈
        (⟨[⟨0, "system", "sys prompt!!", 3, 1⟩], 1, 3, 1⟩ :
          ConversationHistory).messages ∧
      (⟨0, "system", "sys prompt!!", 3, 1⟩ : Msg).role = "system") ∧
    (⟨0, "system", "sys prompt!!", 3, 1⟩ : Msg) ∈
      (add_messages ⟨[⟨0, "system", "sys prompt!!", 3, 1⟩], 1, 3, 1⟩
        [("user", "bbbbbbbb"), ("user", "cccccccc")]).messages :=
  ⟨⟨by decide, rfl⟩,
    system_messages_never_pruned _ _ _ (by decide) rfl⟩

/-! ## The budget invariant maintained by the eviction loop -/

/-- The eviction loop keeps the token-count cache consistent and either gets
at or below `C - target` tokens or exhausts every prunable message (leaving
only system messages), where `C` is the conserved sum
`tokens_removed + current_token_count`. -/
lemma pruneLoop_spec (target C : Int) :
    ∀ (sorted : List (Msg × ℚ)) (msgs : List Msg) (count removed : Int),
    removed + count = C →
    count = sumTokens msgs →
    (∀ p ∈ sorted, p.1.role ≠ "system") →
    (↑(msgs.filter (fun m => m.role ≠ "system")) : Multiset Msg) ≤
      ↑(sorted.map Prod.fst) →
    (pruneLoop target sorted msgs count removed).2 =
        sumTokens (pruneLoop target sorted msgs count removed).1 ∧
      ((pruneLoop target sorted msgs count removed).2 ≤ C - target ∨
        ∀ m ∈ (pruneLoop target sorted msgs count removed).1, m.role = "system") := by
  intro sorted
  induction sorted with
  | nil =>
    intro msgs count removed hC hsum _ hsub
    simp only [pruneLoop]
    refine ⟨hsum, Or.inr ?_⟩
    intro m hm
    by_contra hns
    have : m ∈ msgs.filter (fun m => m.role ≠ "system") :=
      List.mem_filter.mpr ⟨hm, by simpa using hns⟩
    have : m ∈ (↑(msgs.filter (fun m => m.role ≠ "system")) : Multiset Msg) := by
      simpa using this
    have := Multiset.mem_of_le hsub this
    simp at this
  | cons p rest ih =>
    intro msgs count removed hC hsum hns hsub
    obtain ⟨x, q⟩ := p
    rw [pruneLoop]
    by_cases hstop : removed ≥ target
    · simp only [hstop, if_true]
      exact ⟨hsum, Or.inl (by omega)⟩
    · have hxns : x.role ≠ "system" := hns (x, q) (List.mem_cons_self _ _)
      have hcoe : (↑((x, q) :: rest |>.map Prod.fst) : Multiset Msg) =
          x ::ₘ ↑(rest.map Prod.fst) := by simp
      by_cases hx : x ∈ msgs
      · simp only [hstop, if_false, hx, if_true]
        refine ih (msgs.erase x) (count - x.tokens) (removed + x.tokens)
          (by omega) (by rw [hsum, sumTokens_erase hx])
          (fun p hp => hns p (List.mem_cons_of_mem _ hp)) ?_
        rw [filter_erase_of_pos _ x (by simpa using hxns)]
        have := Multiset.erase_le_erase (α := Msg) x (hcoe ▸ hsub)
        rwa [Multiset.erase_cons_head, Multiset.coe_erase] at this
      · simp only [hstop, if_false, hx, if_false]
        refine ih msgs count removed hC hsum
          (fun p hp => hns p (List.mem_cons_of_mem _ hp)) ?_
        refine multiset_le_of_le_cons_not_mem (hcoe ▸ hsub) ?_
        intro hmem
        have hxf : x ∈ msgs.filter (fun m => m.role ≠ "system") := by
          simpa using hmem
        exact hx (List.mem_filter.mp hxf).1

lemma sumTokens_append (l : List Msg) (m : Msg) :
    sumTokens (l ++ [m]) = sumTokens l + m.tokens := by
  simp [sumTokens]

lemma prune_history_maxTokens (h : ConversationHistory) :
    (prune_history h).maxTokens = h.maxTokens := by
  unfold prune_history
  split
  · rfl
  · dsimp only
    split
    · rfl
    · rfl

/-- What one pruning pass guarantees on a consistent history: the cache stays
consistent, and afterwards the history is within budget, or holds at most 2
messages, or holds only system messages. -/
lemma prune_history_spec (h : ConversationHistory)
    (hcons : h.currentTokenCount = sumTokens h.messages) :
    (prune_history h).currentTokenCount = sumTokens (prune_history h).messages ∧
      (sumTokens (prune_history h).messages ≤ h.maxTokens ∨
        (prune_history h).messages.length ≤ 2 ∨
        ∀ m ∈ (prune_history h).messages, m.role = "system") := by
  unfold prune_history
  split
  · next hlen => exact ⟨hcons, Or.inr (Or.inl hlen)⟩
  · dsimp only
    split
    · next hpr =>
      refine ⟨hcons, Or.inr (Or.inr ?_)⟩
      intro m hm
      by_contra hns
      have hmem : m ∈ h.messages.filter (fun m => m.role ≠ "system") :=
        List.mem_filter.mpr ⟨hm, by simpa using hns⟩
      rw [List.isEmpty_iff] at hpr
      rw [hpr] at hmem
      exact absurd hmem (List.not_mem_nil m)
    · next hpr =>
      have hsub : (↑(h.messages.filter (fun m => m.role ≠ "system")) : Multiset Msg) ≤
          ↑(((scoredPrunable h.messages).insertionSort
              (fun a b => a.2 ≤ b.2)).map Prod.fst) :=
        le_of_eq (Multiset.coe_eq_coe.mpr (sorted_scored_map_fst_perm h.messages).symm)
      have hmain := pruneLoop_spec (h.currentTokenCount - h.maxTokens)
        h.currentTokenCount
        ((scoredPrunable h.messages).insertionSort (fun a b => a.2 ≤ b.2))
        h.messages h.currentTokenCount 0 (by omega) hcons
        (sorted_scored_not_system h.messages) hsub
      refine ⟨hmain.1, ?_⟩
      rcases hmain.2 with hle | hsys
      · exact Or.inl (by rw [← hmain.1]; omega)
      · exact Or.inr (Or.inr hsys)

/-! ## C2 — the post-`add_message` budget invariant -/

/-- Counterexample to C2 as stated: three system messages of 2 tokens each
against a budget of 1 token.  After the third `add_message` the history
holds 3 messages totalling 6 tokens, yet pruning can remove nothing because
every message is a system message. -/
theorem add_message_budget_counterexample :
    ¬(sumTokens (add_messages (mkHistory 1)
          [("system", "aaaaaaaa"), ("system", "aaaaaaaa"), ("system", "aaaaaaaa")]).messages ≤
        (add_messages (mkHistory 1)
          [("system", "aaaaaaaa"), ("system", "aaaaaaaa"), ("system", "aaaaaaaa")]).maxTokens ∨
      (add_messages (mkHistory 1)
          [("system", "aaaaaaaa"), ("system", "aaaaaaaa"), ("system", "aaaaaaaa")]).messages.length ≤ 2) := by
  decide

/-- C2 amended: after any `add_message` on a history whose token-count cache
is consistent, either the held messages fit the budget, or at most 2
messages are held, or every held message is a system message (pruning never
touches those, so an all-system history can stay over budget with more than
2 messages). -/
theorem add_message_budget_invariant (h : ConversationHistory)
    (hcons : h.currentTokenCount = sumTokens h.messages) (role content : String) :
    sumTokens (add_message h role content).messages ≤
        (add_message h role content).maxTokens ∨
      (add_message h role content).messages.length ≤ 2 ∨
      ∀ m ∈ (add_message h role content).messages, m.role = "system" := by
  unfold add_message
  dsimp only
  split
  · next hover =>
    have hcons' :
        (⟨h.messages ++ [⟨h.nextId, role, content, estimate_tokens content,
            adjust_importance role content⟩],
          h.maxTokens, h.currentTokenCount + estimate_tokens content,
          h.nextId + 1⟩ : ConversationHistory).currentTokenCount =
        sumTokens (⟨h.messages ++ [⟨h.nextId, role, content, estimate_tokens content,
            adjust_importance role content⟩],
          h.maxTokens, h.currentTokenCount + estimate_tokens content,
          h.nextId + 1⟩ : ConversationHistory).messages := by
      simp [sumTokens_append, hcons]
    have := (prune_history_spec _ hcons').2
    rw [prune_history_maxTokens]
    simpa using this
  · next hover =>
    refine Or.inl ?_
    have : sumTokens (h.messages ++ [⟨h.nextId, role, content, estimate_tokens content,
        adjust_importance role content⟩]) =
        h.currentTokenCount + estimate_tokens content := by
      rw [sumTokens_append, hcons]
    simp only [this]
    omega

/-- Witness for the amended C2 at a concrete input. -/
theorem add_message_budget_invariant_witness :
    (mkHistory 10).currentTokenCount = sumTokens (mkHistory 10).messages ∧
      (sumTokens (add_message (mkHistory 10) "user" "hello").messages ≤
          (add_message (mkHistory 10) "user" "hello").maxTokens ∨
        (add_message (mkHistory 10) "user" "hello").messages.length ≤ 2 ∨
        ∀ m ∈ (add_message (mkHistory 10) "user" "hello").messages,
          m.role = "system") :=
  ⟨rfl, add_message_budget_invariant (mkHistory 10) rfl "user" "hello"⟩

/-! ## C4 — the eviction order and stopping rule -/

/-- The eviction loop exactly as the claim describes it: it additionally
stops as soon as *fewer than 2 messages remain*.  (The source has no such
in-loop floor: the `<= 2` check happens once, before the loop starts.) -/
def pruneLoopClaimed (target : Int) :
    List (Msg × ℚ) → List Msg → Int → Int → List Msg × Int
  | [], msgs, count, _ => (msgs, count)
  | (m, _) :: rest, msgs, count, removed =>
    if removed ≥ target ∨ msgs.length < 2 then (msgs, count)
    else if m ∈ msgs then
      pruneLoopClaimed target rest (msgs.erase m) (count - m.tokens) (removed + m.tokens)
    else
      pruneLoopClaimed target rest msgs count removed

/-- `_prune_history` with the claim's in-loop floor. -/
def prune_history_claimed (h : ConversationHistory) : ConversationHistory :=
  if h.messages.length ≤ 2 then h
  else
    let prunable := h.messages.filter (fun m => m.role ≠ "system")
    if prunable.isEmpty then h
    else
      let sorted := (scoredPrunable h.messages).insertionSort (fun a b => a.2 ≤ b.2)
      let target := h.currentTokenCount - h.maxTokens
      let r := pruneLoopClaimed target sorted h.messages h.currentTokenCount 0
      { h with messages := r.1, currentTokenCount := r.2 }

/-- `add_message` with the claim's pruning variant. -/
def add_message_claimed (h : ConversationHistory) (role content : String) :
    ConversationHistory :=
  let m : Msg :=
    { id := h.nextId, role := role, content := content,
      tokens := estimate_tokens content, importance := adjust_importance role content }
  let h' : ConversationHistory :=
    { h with messages := h.messages ++ [m],
             currentTokenCount := h.currentTokenCount + m.tokens,
             nextId := h.nextId + 1 }
  if h'.currentTokenCount > h.maxTokens then prune_history_claimed h' else h'

/-- Sequence of `add_message_claimed` calls. -/
def add_messages_claimed (h : ConversationHistory) (calls : List (String × String)) :
    ConversationHistory :=
  calls.foldl (fun acc c => add_message_claimed acc c.1 c.2) h

/-- Counterexample to C4 as stated: three 2-token user messages against a
budget of 1 token.  The pruning loop of the source evicts *all three*
messages (no in-loop "fewer than 2 remain" stop exists), while the loop the
claim describes would stop with 1 message left. -/
theorem prune_stop_rule_counterexample :
    (add_messages (mkHistory 1)
        [("user", "aaaaaaaa"), ("user", "bbbbbbbb"), ("user", "cccccccc")]).messages.length = 0 ∧
      (add_messages_claimed (mkHistory 1)
        [("user", "aaaaaaaa"), ("user", "bbbbbbbb"), ("user", "cccccccc")]).messages.length = 1 := by
  decide

/-- The evicted messages, described independently of the loop: the shortest
prefix of the score-sorted prunable messages whose accumulated token count
reaches `target` (all of them when the total never reaches it).  `acc` is
the token count already accounted. -/
def evictList (target : Int) : List Msg → Int → List Msg
  | [], _ => []
  | m :: rest, acc =>
    if acc ≥ target then [] else m :: evictList target rest (acc + m.tokens)

/-- The source's eviction loop removes exactly the `evictList` prefix of the
sorted prunable messages and debits exactly its token sum. -/
lemma pruneLoop_eq_evict (target : Int) :
    ∀ (sorted : List (Msg × ℚ)) (msgs : List Msg) (count removed : Int),
    (↑(sorted.map Prod.fst) : Multiset Msg) ≤ ↑msgs →
    pruneLoop target sorted msgs count removed =
      ((evictList target (sorted.map Prod.fst) removed).foldl List.erase msgs,
        count - sumTokens (evictList target (sorted.map Prod.fst) removed)) := by
  intro sorted
  induction sorted with
  | nil => intro msgs count removed _; simp [pruneLoop, evictList, sumTokens]
  | cons p rest ih =>
    intro msgs count removed hsub
    obtain ⟨x, q⟩ := p
    have hxmem : x ∈ msgs := by
      have : x ∈ (↑(((x, q) :: rest).map Prod.fst) : Multiset Msg) := by simp
      simpa using Multiset.mem_of_le hsub this
    rw [pruneLoop]
    by_cases hstop : removed ≥ target
    · simp [hstop, evictList, sumTokens]
    · simp only [hstop, if_false, hxmem, if_true, List.map_cons, evictList]
      have hsub' : (↑(rest.map Prod.fst) : Multiset Msg) ≤ ↑(msgs.erase x) := by
        have hcoe : (↑(((x, q) :: rest).map Prod.fst) : Multiset Msg) =
            x ::ₘ ↑(rest.map Prod.fst) := by simp
        have := Multiset.erase_le_erase (α := Msg) x (hcoe ▸ hsub)
        rwa [Multiset.erase_cons_head, Multiset.coe_erase] at this
      rw [ih (msgs.erase x) (count - x.tokens) (removed + x.tokens) hsub']
      simp only [List.foldl_cons, sumTokens, List.map_cons, List.sum_cons,
        Prod.mk.injEq]
      exact ⟨trivial, by omega⟩

/-- `evictList` never selects a message once the accumulated count has
reached the target: every proper prefix of the selection is still short of
it. -/
lemma evictList_no_over_eviction (target : Int) :
    ∀ (l : List Msg) (acc : Int) (k : Nat),
    k < (evictList target l acc).length →
    acc + sumTokens ((evictList target l acc).take k) < target := by
  intro l
  induction l with
  | nil => intro acc k hk; simp [evictList] at hk
  | cons m rest ih =>
    intro acc k hk
    rw [evictList] at hk ⊢
    by_cases hstop : acc ≥ target
    · simp [hstop] at hk
    · simp only [hstop, if_false] at hk ⊢
      match k with
      | 0 => simpa [sumTokens] using not_le.mp hstop
      | Nat.succ k' =>
        simp only [List.length_cons, Nat.succ_lt_succ_iff] at hk
        have := ih (acc + m.tokens) k' hk
        simp only [List.take_succ_cons, sumTokens, List.map_cons, List.sum_cons]
        unfold sumTokens at this
        omega

/-- C4 amended: whenever pruning actually runs (over budget, more than two
messages, at least one non-system message), each non-system message gets
`position_factor` interpolated from 0.5 to 1.0 over the prunable
subsequence, messages are evicted in ascending `combined_score` order
accumulating removed tokens until the overage is covered or the prunable
messages are exhausted — with no in-loop "2 messages" floor — and no
message is evicted once the accumulated removal already covers the
overage. -/
theorem prune_history_amended (h : ConversationHistory)
    (hcons : h.currentTokenCount = sumTokens h.messages)
    (hlen : ¬h.messages.length ≤ 2)
    (hpr : ¬(h.messages.filter (fun m => m.role ≠ "system")).isEmpty) :
    (prune_history h).messages =
        (evictList (h.currentTokenCount - h.maxTokens)
          (((scoredPrunable h.messages).insertionSort
            (fun a b => a.2 ≤ b.2)).map Prod.fst) 0).foldl List.erase h.messages ∧
      (prune_history h).currentTokenCount =
        h.currentTokenCount - sumTokens
          (evictList (h.currentTokenCount - h.maxTokens)
            (((scoredPrunable h.messages).insertionSort
              (fun a b => a.2 ≤ b.2)).map Prod.fst) 0) ∧
      ∀ k < (evictList (h.currentTokenCount - h.maxTokens)
          (((scoredPrunable h.messages).insertionSort
            (fun a b => a.2 ≤ b.2)).map Prod.fst) 0).length,
        sumTokens ((evictList (h.currentTokenCount - h.maxTokens)
          (((scoredPrunable h.messages).insertionSort
            (fun a b => a.2 ≤ b.2)).map Prod.fst) 0).take k) <
          h.currentTokenCount - h.maxTokens := by
  have hsub : (↑(((scoredPrunable h.messages).insertionSort
      (fun a b => a.2 ≤ b.2)).map Prod.fst) : Multiset Msg) ≤ ↑h.messages := by
    have h1 : (↑(((scoredPrunable h.messages).insertionSort
        (fun a b => a.2 ≤ b.2)).map Prod.fst) : Multiset Msg) =
        ↑(h.messages.filter (fun m => m.role ≠ "system")) :=
      Multiset.coe_eq_coe.mpr (sorted_scored_map_fst_perm h.messages)
    rw [h1]
    exact (List.filter_sublist h.messages).subperm
  have hloop := pruneLoop_eq_evict (h.currentTokenCount - h.maxTokens)
    ((scoredPrunable h.messages).insertionSort (fun a b => a.2 ≤ b.2))
    h.messages h.currentTokenCount 0 hsub
  have hresult : prune_history h =
      { h with
        messages := (evictList (h.currentTokenCount - h.maxTokens)
          (((scoredPrunable h.messages).insertionSort
            (fun a b => a.2 ≤ b.2)).map Prod.fst) 0).foldl List.erase h.messages,
        currentTokenCount := h.currentTokenCount - sumTokens
          (evictList (h.currentTokenCount - h.maxTokens)
            (((scoredPrunable h.messages).insertionSort
              (fun a b => a.2 ≤ b.2)).map Prod.fst) 0) } := by
    unfold prune_history
    rw [if_neg hlen, if_neg hpr]
    dsimp only
    rw [hloop]
  refine ⟨by rw [hresult], by rw [hresult], ?_⟩
  intro k hk
  have := evictList_no_over_eviction (h.currentTokenCount - h.maxTokens)
    (((scoredPrunable h.messages).insertionSort
      (fun a b => a.2 ≤ b.2)).map Prod.fst) 0 k hk
  omega

/-- Witness for the amended C4 at the concrete pre-prune state of the
counterexample run. -/
theorem prune_history_amended_witness :
    ((⟨[⟨0, "user", "aaaaaaaa", 2, 1⟩, ⟨1, "user", "bbbbbbbb", 2, 1⟩,
          ⟨2, "user", "cccccccc", 2, 1⟩], 1, 6, 3⟩ :
        ConversationHistory).currentTokenCount =
        sumTokens (⟨[⟨0, "user", "aaaaaaaa", 2, 1⟩, ⟨1, "user", "bbbbbbbb", 2, 1⟩,
          ⟨2, "user", "cccccccc", 2, 1⟩], 1, 6, 3⟩ :
          ConversationHistory).messages ∧
      ¬(⟨[⟨0, "user", "aaaaaaaa", 2, 1⟩, ⟨1, "user", "bbbbbbbb", 2, 1⟩,
          ⟨2, "user", "cccccccc", 2, 1⟩], 1, 6, 3⟩ :
          ConversationHistory).messages.length ≤ 2 ∧
      ¬((⟨[⟨0, "user", "aaaaaaaa", 2, 1⟩, ⟨1, "user", "bbbbbbbb", 2, 1⟩,
          ⟨2, "user", "cccccccc", 2, 1⟩], 1, 6, 3⟩ :
          ConversationHistory).messages.filter
            (fun m => m.role ≠ "system")).isEmpty) ∧
    (prune_history ⟨[⟨0, "user", "aaaaaaaa", 2, 1⟩, ⟨1, "user", "bbbbbbbb", 2, 1⟩,
        ⟨2, "user", "cccccccc", 2, 1⟩], 1, 6, 3⟩).messages =
      (evictList ((6 : Int) - 1)
        (((scoredPrunable [⟨0, "user", "aaaaaaaa", 2, 1⟩, ⟨1, "user", "bbbbbbbb", 2, 1⟩,
            ⟨2, "user", "cccccccc", 2, 1⟩]).insertionSort
          (fun a b => a.2 ≤ b.2)).map Prod.fst) 0).foldl List.erase
        [⟨0, "user", "aaaaaaaa", 2, 1⟩, ⟨1, "user", "bbbbbbbb", 2, 1⟩,
          ⟨2, "user", "cccccccc", 2, 1⟩] :=
  ⟨⟨by decide, by decide, by decide⟩,
    (prune_history_amended _ (by decide) (by decide) (by decide)).1⟩

/-! ## C5 — importance is assigned by the last matching rule -/

/-- C5: the final importance is a sequential overwrite — the last matching
rule of the four (code fence 1.5; trigger words 1.7; long assistant message
1.3; assistant tool/command mention 1.6) determines the value, a message
matching several rules gets only the last matching rule's value, and an
unmatched message keeps 1.0.  The two concrete conjuncts exhibit
multi-matching messages whose importance is the last rule's value, not a
product. -/
theorem adjust_importance_last_match_wins :
    (∀ role content : String,
      adjust_importance role content =
        (let c := pyLower content.data
         if role = "assistant" ∧
             (pyContains "executing tool".data c ∨ pyContains "executing bash".data c) then
           (16 : ℚ) / 10
         else if c.length > 1000 ∧ role = "assistant" then (13 : ℚ) / 10
         else if pyContains "important".data c ∨ pyContains "remember".data c ∨
             pyContains "note".data c ∨ pyContains "key".data c then (17 : ℚ) / 10
         else if pyContains "```".data c then (3 : ℚ) / 2
         else 1)) ∧
      adjust_importance "user" "IMPORTANT: ```code```" = (17 : ℚ) / 10 ∧
      adjust_importance "assistant" "remember ``` executing tool" = (16 : ℚ) / 10 :=
  ⟨fun _ _ => rfl, rfl, rfl⟩

/-! ## `ollamacode/security.py` -/

/-- The two configuration values `SecurityManager.is_command_safe` reads:
`config.get("enable_bash", True)` and `config.get("safe_mode", True)`. -/
structure SecCfg where
  enable_bash : Bool := true
  safe_mode : Bool := true
  deriving DecidableEq, Repr

/-- `self.blacklisted_commands`.  The source stores these in a Python `set`,
whose iteration order is unspecified; the embedding fixes source order,
which only affects *which* blacklisted substring is reported for a command
containing several. -/
def blacklisted_commands : List String :=
  ["rm -rf /", "rm -rf /*", "mkfs", "dd if=/dev/zero of=/dev/sda",
   ":()\x7b:|:&\x7d;:", "echo > /dev/sda", "mv /* /dev/null",
   "sudo", "su ", "sudo ", "pkexec", "doas",
   "nc -e", "ncat -e", "netcat -e",
   "wget -O- | sh", "curl | sh", "wget -O- | bash", "curl | bash"]

/-- `self.restricted_commands`. -/
def restricted_commands : List String :=
  ["chmod", "chown", "mount", "umount", "dd", "fdisk",
   "shutdown", "reboot", "halt", "poweroff"]

/-- Elements of the small regex fragment `self.restricted_patterns` uses:
literals, `\s*`, `\s+`, `.+` (any non-newline, one or more), `[^c]`, and a
two-literal alternation. -/
inductive RElem where
  | lit (s : List Char)
  | wsStar
  | wsPlus
  | dotPlus
  | notChar (c : Char)
  | alt (a b : List Char)

/-- Does some prefix of `s` match the element sequence?  Backtracking search
with a fuel bound on recursion depth (every call consumes a character or a
pattern element, so `s.length + pattern length + 1` fuel is exhaustive). -/
def reMatchSeq : Nat → List RElem → List Char → Bool
  | 0, _, _ => false
  | _ + 1, [], _ => true
  | fuel + 1, .lit p :: rest, s => p.isPrefixOf s && reMatchSeq fuel rest (s.drop p.length)
  | fuel + 1, .notChar c :: rest, s =>
    match s with
    | [] => false
    | d :: t => decide (d ≠ c) && reMatchSeq fuel rest t
  | fuel + 1, .alt a b :: rest, s =>
    (a.isPrefixOf s && reMatchSeq fuel rest (s.drop a.length)) ||
    (b.isPrefixOf s && reMatchSeq fuel rest (s.drop b.length))
  | fuel + 1, .wsStar :: rest, s =>
    reMatchSeq fuel rest s ||
    (match s with
     | [] => false
     | d :: t => isPyWhitespace d && reMatchSeq fuel (.wsStar :: rest) t)
  | fuel + 1, .wsPlus :: rest, s =>
    match s with
    | [] => false
    | d :: t => isPyWhitespace d && reMatchSeq fuel (.wsStar :: rest) t
  | fuel + 1, .dotPlus :: rest, s =>
    match s with
    | [] => false
    | d :: t => decide (d ≠ '\n') &&
        (reMatchSeq fuel rest t || reMatchSeq fuel (.dotPlus :: rest) t)

/-- `re.search` existence semantics: the pattern matches at some position. -/
def reSearch (pat : List RElem) (s : List Char) : Bool :=
  s.tails.any (fun t => reMatchSeq (t.length + pat.length + 1) pat t)

/-- `self.restricted_patterns`, each with its display text (used in the
denial reason). -/
def restricted_patterns : List (String × List RElem) :=
  [(">\\s*/dev/", [.lit ">".data, .wsStar, .lit "/dev/".data]),
   (">\\s*/proc/", [.lit ">".data, .wsStar, .lit "/proc/".data]),
   (">\\s*/sys/", [.lit ">".data, .wsStar, .lit "/sys/".data]),
   ("rm\\s+-rf\\s+[^/]",
     [.lit "rm".data, .wsPlus, .lit "-rf".data, .wsPlus, .notChar '/']),
   ("wget\\s+.+\\s+\\|\\s+(?:sh|bash)",
     [.lit "wget".data, .wsPlus, .dotPlus, .wsPlus, .lit "|".data, .wsPlus,
       .alt "sh".data "bash".data]),
   ("curl\\s+.+\\s+\\|\\s+(?:sh|bash)",
     [.lit "curl".data, .wsPlus, .dotPlus, .wsPlus, .lit "|".data, .wsPlus,
       .alt "sh".data "bash".data])]

/-- Lexer modes of `shlex.split` (POSIX mode). -/
inductive ShMode where
  | normal
  | single
  | double
  deriving DecidableEq

/-- The token separators of `shlex` (`shlex.whitespace = " \t\r\n"` — a
smaller set than `str.strip`'s). -/
def shWhitespace (c : Char) : Bool :=
  c = ' ' ∨ c = '\t' ∨ c = '\r' ∨ c = '\n'

/-- `shlex.split(command)` (POSIX mode): whitespace-separated tokens with
single/double quoting and backslash escaping.  Outside quotes a backslash
appends the following character verbatim — including a newline, `shlex`
does *no* shell-style line continuation (`shlex.split("a\\\nb")` is
`["a\nb"]`).  Inside double quotes a backslash escapes only `"` and `\`;
before any other character both the backslash and that character are kept.
An unterminated quote and a trailing backslash raise `ValueError`
(modelled as `Except.error` with the message Python uses). -/
def shlexAux : List Char → ShMode → Option (List Char) → List (List Char) →
    Except String (List String)
  | [], .normal, cur, acc =>
    let acc := match cur with | some w => w.reverse :: acc | none => acc
    .ok (acc.reverse.map (fun w => ⟨w⟩))
  | [], .single, _, _ => .error "No closing quotation"
  | [], .double, _, _ => .error "No closing quotation"
  | c :: t, .normal, cur, acc =>
    if shWhitespace c then
      match cur with
      | some w => shlexAux t .normal none (w.reverse :: acc)
      | none => shlexAux t .normal none acc
    else if c = '\'' then shlexAux t .single (some (cur.getD [])) acc
    else if c = '"' then shlexAux t .double (some (cur.getD [])) acc
    else if c = '\\' then
      match t with
      | [] => .error "No escaped character"
      | c2 :: t2 => shlexAux t2 .normal (some (c2 :: cur.getD [])) acc
    else shlexAux t .normal (some (c :: cur.getD [])) acc
  | c :: t, .single, cur, acc =>
    if c = '\'' then shlexAux t .normal cur acc
    else shlexAux t .single (some (c :: cur.getD [])) acc
  | c :: t, .double, cur, acc =>
    if c = '"' then shlexAux t .normal cur acc
    else if c = '\\' then
      match t with
      | [] => .error "No escaped character"
      | c2 :: t2 =>
        if c2 = '"' ∨ c2 = '\\' then shlexAux t2 .double (some (c2 :: cur.getD [])) acc
        else shlexAux t2 .double (some (c2 :: '\\' :: cur.getD [])) acc
    else shlexAux t .double (some (c :: cur.getD [])) acc
  termination_by l _ _ _ => l.length

def shlexSplit (s : List Char) : Except String (List String) :=
  shlexAux s .normal none []

/-- `SecurityManager.is_command_safe(command)`, returning the
`(is_safe, reason)` pair. -/
def is_command_safe (cfg : SecCfg) (command : String) : Bool × String :=
  if ¬cfg.enable_bash then (false, "Bash execution is disabled in configuration")
  else if ¬cfg.safe_mode then (true, "")
  else
    let command_lower := pyLower command.data
    match blacklisted_commands.find? (fun b => pyContains b.data command_lower) with
    | some b => (false, "Command contains blacklisted pattern: " ++ b)
    | none =>
      match restricted_patterns.find? (fun p => reSearch p.2 command_lower) with
      | some p => (false, "Command matches restricted pattern: " ++ p.1)
      | none =>
        match shlexSplit command.data with
        | .error e => (false, "Error parsing command: " ++ e)
        | .ok [] => (false, "Empty command")
        | .ok (executable :: _) =>
          if executable ∈ restricted_commands then
            (false, "Command '" ++ executable ++ "' is restricted in safe mode")
          else (true, "")

/-! ## C7 — `is_command_safe("sudo rm -rf /")` under both modes -/

/-- C7: under the default configuration (safe mode on, bash enabled),
`is_command_safe("sudo rm -rf /")` denies with a non-empty reason; with
`safe_mode=False` (bash still enabled) the same call passes unconditionally
with `(True, "")`. -/
theorem is_command_safe_sudo_rm_rf :
    (is_command_safe ⟨true, true⟩ "sudo rm -rf /").1 = false ∧
      (is_command_safe ⟨true, true⟩ "sudo rm -rf /").2 ≠ "" ∧
      is_command_safe ⟨true, false⟩ "sudo rm -rf /" = (true, "") := by
  decide

/-! ## `SecurityManager.safe_web_request` -/

/-- The `netloc` of `urllib.parse.urlparse(url)` for the `http://`/`https://`
URLs that reach the parse (every other shape has already been rejected):
the text after the `//` up to the first `/`, `?` or `#`. -/
def urlNetloc (url : List Char) : List Char :=
  let rest :=
    if pyStartsWith "http://".data url then url.drop 7
    else if pyStartsWith "https://".data url then url.drop 8
    else []
  rest.takeWhile (fun c => c ≠ '/' ∧ c ≠ '?' ∧ c ≠ '#')

/-- The lowercased scheme of such a URL. -/
def urlScheme (url : List Char) : String :=
  if pyStartsWith "http://".data url then "http"
  else if pyStartsWith "https://".data url then "https"
  else ""

/-- The hostname test value of `safe_web_request`:
`parsed_url.netloc.split(':')[0].lower()`. -/
def webHostname (url : List Char) : List Char :=
  pyLower ((urlNetloc url).takeWhile (fun c => c ≠ ':'))

/-- The `ValueError("Invalid IPv6 URL")` check of `urllib.parse.urlsplit`:
it raises when the netloc contains an unmatched `[` or `]`.  (CPython 3.11+
additionally rejects some *balanced*-bracket netlocs whose bracketed host
is no valid IPv6/IPvFuture literal, and non-ASCII netlocs can raise in the
NFKC check; both land in the same `except` arm of `safe_web_request`.  The
theorem below therefore asserts the exact private-IP reason only for
bracket-free all-ASCII netlocs, where no CPython version raises.) -/
def bracketMismatch (netloc : List Char) : Bool :=
  (netloc.contains '[' && !netloc.contains ']') ||
  (netloc.contains ']' && !netloc.contains '[')

/-- `SecurityManager.safe_web_request(url)`:  pass-through when safe mode is
off; require an `http(s)://` prefix; then, inside the source's `try`, parse
the URL — an unmatched bracket in the netloc makes `urlparse` raise, which
the `except` arm turns into the parse-error reason — and otherwise block
localhost names, the literal private-prefix list (including the bare prefix
`"172.2"`), and the restricted schemes. -/
def safe_web_request (safeMode : Bool) (url : String) : Bool × String :=
  if ¬safeMode then (true, "")
  else if ¬(pyStartsWith "http://".data url.data ∨ pyStartsWith "https://".data url.data) then
    (false, "URL must start with http:// or https://")
  else if bracketMismatch (urlNetloc url.data) then
    (false, "Error parsing URL: Invalid IPv6 URL")
  else
    let hostname := webHostname url.data
    if hostname = "localhost".data ∨ hostname = "127.0.0.1".data ∨
        hostname = "::1".data then
      (false, "Access to localhost URLs is restricted")
    else if pyStartsWith "192.168.".data hostname ∨
        pyStartsWith "10.".data hostname ∨
        pyStartsWith "172.16.".data hostname ∨
        pyStartsWith "172.17.".data hostname ∨
        pyStartsWith "172.18.".data hostname ∨
        pyStartsWith "172.19.".data hostname ∨
        pyStartsWith "172.2".data hostname ∨
        pyStartsWith "172.30.".data hostname ∨
        pyStartsWith "172.31.".data hostname then
      (false, "Access to private IP URLs is restricted")
    else if urlScheme url.data ∈ ["file", "ftp", "sftp", "smtp", "telnet"] then
      (false, "The " ++ urlScheme url.data ++ " protocol is restricted")
    else (true, "")

/-! ## C10 — the `"172.2"` prefix rejects even public hosts -/

/-- C10: under safe mode, every `http(s)` URL whose hostname literal (the
netloc up to the first colon, lowercased) begins with the string `"172.2"`
is rejected: the result is `(False, reason)` with a non-empty reason, and
whenever the netloc is bracket-free and all-ASCII — so `urlparse` raises in
no CPython version and the hostname checks actually run — the reason is
exactly the private-IP denial, a string prefix match rather than CIDR
membership, so publicly routable hosts such as `172.200.0.1` are also
rejected (see the witness).  On an unmatched bracket (e.g.
`http://172.2[/`) the rejection comes from the `except` arm instead, with
the parse-error reason. -/
theorem safe_web_request_172_2_prefix_blocked (url : String)
    (hscheme : pyStartsWith "http://".data url.data ∨
      pyStartsWith "https://".data url.data)
    (hhost : pyStartsWith "172.2".data (webHostname url.data)) :
    (safe_web_request true url).1 = false ∧
      (safe_web_request true url).2 ≠ "" ∧
      ((urlNetloc url.data).all (fun c => c ≠ '[' ∧ c ≠ ']' ∧ c.toNat < 128) →
        safe_web_request true url =
          (false, "Access to private IP URLs is restricted")) := by
  unfold safe_web_request
  rw [if_neg (by simp), if_neg (not_not_intro hscheme)]
  by_cases hbr : bracketMismatch (urlNetloc url.data)
  · rw [if_pos hbr]
    refine ⟨rfl, by simp, ?_⟩
    intro hfree
    exfalso
    have hnb : ∀ b ∈ urlNetloc url.data, b ≠ '[' ∧ b ≠ ']' := by
      intro b hb
      have := List.all_eq_true.mp hfree b hb
      simp only [decide_eq_true_eq] at this
      exact ⟨this.1, this.2.1⟩
    have hco : ∀ d : Char, (d = '[' ∨ d = ']') →
        (urlNetloc url.data).contains d = false := by
      intro d hd
      rw [List.contains_eq_any_beq, List.any_eq_false]
      intro b hb
      rcases hd with rfl | rfl
      · simpa using Ne.symm (hnb b hb).1
      · simpa using Ne.symm (hnb b hb).2
    rw [bracketMismatch, hco '[' (Or.inl rfl), hco ']' (Or.inr rfl)] at hbr
    simp at hbr
  · rw [if_neg hbr]
    obtain ⟨t, ht⟩ := List.isPrefixOf_iff_prefix.mp hhost
    have hh : (webHostname url.data).take 3 = ['1', '7', '2'] := by rw [← ht]; rfl
    have hlocal : ¬(webHostname url.data = "localhost".data ∨
        webHostname url.data = "127.0.0.1".data ∨
        webHostname url.data = "::1".data) := by
      intro hcon
      rcases hcon with h | h | h <;> rw [h] at hh <;> exact absurd hh (by decide)
    rw [if_neg hlocal, if_pos
      (Or.inr (Or.inr (Or.inr (Or.inr (Or.inr (Or.inr (Or.inl hhost)))))))]
    exact ⟨rfl, by simp, fun _ => rfl⟩

/-- Witness for C10: `172.200.0.1` is outside the RFC1918 private range
(172.16.0.0/12 ends at 172.31.255.255) and its netloc is bracket-free
ASCII, yet the prefix test rejects it with the private-IP reason. -/
theorem safe_web_request_172_2_prefix_blocked_witness :
    (pyStartsWith "http://".data "http://172.200.0.1/data".data ∨
        pyStartsWith "https://".data "http://172.200.0.1/data".data) ∧
      pyStartsWith "172.2".data (webHostname "http://172.200.0.1/data".data) = true ∧
      ((urlNetloc "http://172.200.0.1/data".data).all
        (fun c => c ≠ '[' ∧ c ≠ ']' ∧ c.toNat < 128) = true) ∧
      safe_web_request true "http://172.200.0.1/data" =
        (false, "Access to private IP URLs is restricted") :=
  ⟨Or.inl (by decide), by decide, by decide,
    (safe_web_request_172_2_prefix_blocked "http://172.200.0.1/data"
      (Or.inl (by decide)) (by decide)).2.2 (by decide)⟩

/-! ## `ollamacode/tools.py` -/

/-- `os.path.isabs`. -/
def isAbs (p : List Char) : Bool := pyStartsWith "/".data p

/-- `os.path.join(a, b)` for a non-absolute `b` (the only way the source
calls it). -/
def joinPath (a b : List Char) : List Char :=
  if a = [] then b
  else if a.getLast? = some '/' then a ++ b
  else a ++ '/' :: b

/-- Split a character list at a separator character. -/
def splitOnChar (c : Char) : List Char → List (List Char)
  | [] => [[]]
  | d :: t =>
    let r := splitOnChar c t
    if d = c then [] :: r
    else
      match r with
      | [] => [[d]]
      | w :: ws => (d :: w) :: ws

/-- `os.path.normpath` on an absolute POSIX path: drop empty and `.`
components, let `..` pop the previous component (or vanish at the root).
(The POSIX double-leading-slash special case is collapsed to one slash;
nothing here depends on it.) -/
def normpathAbs (p : List Char) : List Char :=
  let comps := (splitOnChar '/' p).filter (fun w => w ≠ [] ∧ w ≠ ['.'])
  let stack := comps.foldl
    (fun st w => if w = "..".data then st.dropLast else st ++ [w]) []
  '/' :: List.intercalate ['/'] stack

/-- `ToolsFramework._sanitize_path`: resolve relative paths against the
working directory, normalise, and under safe mode reject any result that is
not prefixed by the working directory (the source raises `ValueError`,
caught by the tool handler; here the raise is the `error` arm).  The
working directory is taken as an absolute path string, as
`str(self.working_dir)` yields. -/
def sanitize_path (workingDir : String) (safeMode : Bool) (path : String) :
    Except String String :=
  let p := if isAbs path.data then path.data else joinPath workingDir.data path.data
  let p := normpathAbs p
  if safeMode then
    if ¬pyStartsWith workingDir.data p then
      .error ("Access denied: Path must be within " ++ workingDir)
    else .ok ⟨p⟩
  else .ok ⟨p⟩

/-- What the filesystem holds at a path (the oracle `file_read` consults). -/
inductive FsNode where
  | missing
  | file (size : Int) (content : String)
  | dir

/-- A tool handler result: `status` plus the fields the handlers populate. -/
structure ToolResult where
  status : String
  error : Option String := none
  content : Option String := none
  size : Option Int := none
  path : Option String := none
  returncode : Option Int := none
  stdout : Option String := none
  stderr : Option String := none
  deriving DecidableEq, Repr

/-- `ToolsFramework.file_read(params)`: missing-parameter check, path
sanitisation (inside the handler's `try`, so the `ValueError` becomes a
`status=error` result), existence and regular-file checks, the 10 MiB cap
(whose message elides the source's `%.2f` size formatting), then the
content.  `fs` is the filesystem oracle; it is only consulted after
sanitisation succeeds. -/
def file_read (fs : String → FsNode) (workingDir : String) (safeMode : Bool)
    (paramsPath : Option String) : ToolResult :=
  match paramsPath with
  | none => { status := "error", error := some "Missing required parameter: path" }
  | some pathParam =>
    match sanitize_path workingDir safeMode pathParam with
    | .error e => { status := "error", error := some e }
    | .ok path =>
      match fs path with
      | .missing => { status := "error", error := some ("File not found: " ++ path) }
      | .dir => { status := "error", error := some ("Not a file: " ++ path) }
      | .file size content =>
        if size > 10 * 1024 * 1024 then
          { status := "error",
            error := some "File too large. Maximum size is 10MB." }
        else
          { status := "success", content := some content, size := some size,
            path := some path }

lemma pyContains_of_prefix {pat s : List Char} (h : pat <+: s) :
    pyContains pat s = true := by
  unfold pyContains
  rw [List.any_eq_true]
  exact ⟨s, by simp [List.mem_tails], List.isPrefixOf_iff_prefix.mpr h⟩

/-! ## C8 — out-of-workspace `file_read` is denied before any file access -/

/-- C8: under safe mode, for every path whose resolved absolute form is not
prefixed by the working directory, `file_read` returns `status="error"`
with the access-denial reason and no content; the result is independent of
the filesystem because the denial happens before any file is opened. -/
theorem file_read_outside_working_dir_denied
    (fs fs' : String → FsNode) (workingDir p : String)
    (hout : ¬pyStartsWith workingDir.data
      (normpathAbs (if isAbs p.data then p.data else joinPath workingDir.data p.data))) :
    (file_read fs workingDir true (some p)).status = "error" ∧
      (file_read fs workingDir true (some p)).error =
        some ("Access denied: Path must be within " ++ workingDir) ∧
      pyContains "Access denied".data
        ("Access denied: Path must be within " ++ workingDir).data = true ∧
      (file_read fs workingDir true (some p)).content = none ∧
      file_read fs' workingDir true (some p) = file_read fs workingDir true (some p) := by
  have hsan : sanitize_path workingDir true p =
      .error ("Access denied: Path must be within " ++ workingDir) := by
    unfold sanitize_path
    rw [if_pos rfl, if_pos hout]
  have hres : ∀ g : String → FsNode, file_read g workingDir true (some p) =
      { status := "error",
        error := some ("Access denied: Path must be within " ++ workingDir) } := by
    intro g
    simp only [file_read, hsan]
  have hcont : pyContains "Access denied".data
      ("Access denied: Path must be within " ++ workingDir).data = true := by
    apply pyContains_of_prefix
    refine ⟨": Path must be within ".data ++ workingDir.data, ?_⟩
    rw [String.data_append]
    rw [show ("Access denied: Path must be within ").data =
      "Access denied".data ++ ": Path must be within ".data from by decide]
    simp
  rw [hres fs, hres fs']
  exact ⟨rfl, rfl, hcont, rfl, rfl⟩

/-- Witness for C8: reading `/etc/passwd` from workspace `/ws`, against two
different filesystem oracles (in one the file exists and is readable). -/
theorem file_read_outside_working_dir_denied_witness :
    (¬pyStartsWith "/ws".data
        (normpathAbs (if isAbs "/etc/passwd".data then "/etc/passwd".data
          else joinPath "/ws".data "/etc/passwd".data))) ∧
      (file_read (fun _ => FsNode.missing) "/ws" true (some "/etc/passwd")).status =
          "error" ∧
      (file_read (fun _ => FsNode.missing) "/ws" true (some "/etc/passwd")).content =
          none ∧
      file_read (fun _ => FsNode.file 100 "root:x:0:0") "/ws" true (some "/etc/passwd") =
        file_read (fun _ => FsNode.missing) "/ws" true (some "/etc/passwd") :=
  have h := file_read_outside_working_dir_denied
    (fun _ => FsNode.missing) (fun _ => FsNode.file 100 "root:x:0:0")
    "/ws" "/etc/passwd" (by decide)
  ⟨by decide, h.1, h.2.2.2.1, h.2.2.2.2⟩

/-! ## `ToolsFramework.python_run` with an inline `code` parameter -/

/-- How the spawned interpreter run ends: killed by the 15-second timeout,
or exited with a return code and captured output. -/
inductive PyExecOutcome where
  | timedOut
  | exited (returncode : Int) (stdout stderr : String)
  deriving DecidableEq, Repr

/-- A `python_run` result together with the fate of the temporary file the
handler creates for inline code. -/
structure PyRunCodeResult where
  result : ToolResult
  tempCreated : Bool
  tempDeleted : Bool
  deriving DecidableEq, Repr

/-- `ToolsFramework.python_run` on the inline-`code` branch.  Oracles stand
for the interpreter lookup (`find_executable`), the `compile()` syntax
check (`compileErr = some msg` models a raised `SyntaxError` with message
`msg`), and the subprocess outcome.  The control flow is the source's:
the temp file is written *before* the compile check; the `SyntaxError` and
`TimeoutExpired` arms return without reaching the `os.unlink` that only the
normal fall-through executes. -/
def python_run_code (pythonFound : Bool) (compileErr : Option String)
    (outcome : PyExecOutcome) : PyRunCodeResult :=
  if ¬pythonFound then
    { result := { status := "error", error := some "Python executable not found." },
      tempCreated := false, tempDeleted := false }
  else
    -- fd, temp_file = tempfile.mkstemp(suffix=".py"); f.write(code)
    match compileErr with
    | some msg =>
      { result := { status := "error", error := some ("Python syntax error: " ++ msg) },
        tempCreated := true, tempDeleted := false }
    | none =>
      match outcome with
      | .timedOut =>
        { result :=
            { status := "error",
              error := some "Python script execution timed out after 15 seconds." },
          tempCreated := true, tempDeleted := false }
      | .exited rc out err =>
        -- os.unlink(temp_file)
        if rc = 0 then
          { result := { status := "success", returncode := some rc, stdout := some out },
            tempCreated := true, tempDeleted := true }
        else
          { result :=
              { status := "error", returncode := some rc,
                stdout := some out, stderr := some err },
            tempCreated := true, tempDeleted := true }

/-! ## C3 — the inline-code temp file is *not* always deleted -/

/-- Counterexample to C3 as stated: on the syntax-error rejection and on the
timeout kill, `python_run` returns with the temp file still on disk — the
cleanup is not scoped, it sits only on the normal fall-through path. -/
theorem python_run_temp_cleanup_counterexample :
    ((python_run_code true (some "invalid syntax") (.exited 0 "" "")).tempCreated = true ∧
      (python_run_code true (some "invalid syntax") (.exited 0 "" "")).tempDeleted = false) ∧
    ((python_run_code true none .timedOut).tempCreated = true ∧
      (python_run_code true none .timedOut).tempDeleted = false) := by
  decide

/-- C3 amended: the temp file created for inline code is deleted exactly
when execution reaches the subprocess phase and does not time out — i.e. on
successful execution and on non-zero exit, but not on the syntax-error
rejection and not on the timeout kill. -/
theorem python_run_temp_cleanup_amended (pythonFound : Bool)
    (compileErr : Option String) (outcome : PyExecOutcome) :
    (python_run_code pythonFound compileErr outcome).tempDeleted = true ↔
      (pythonFound = true ∧ compileErr = none ∧ outcome ≠ PyExecOutcome.timedOut) := by
  cases pythonFound with
  | false => simp [python_run_code]
  | true =>
    cases compileErr with
    | some msg => simp [python_run_code]
    | none =>
      cases outcome with
      | timedOut => simp [python_run_code]
      | exited rc out err =>
        by_cases hrc : rc = 0 <;> simp [python_run_code, hrc]

/-! ## `ollamacode/utils.py` — `extract_tool_calls` -/

/-- The Python values `json.loads` can produce.  Float literals keep their
source text: no arithmetic is ever performed on them, and every operation
the extractor applies (membership tests, key lookup) is independent of the
numeric value. -/
inductive PyVal where
  | null
  | bool (b : Bool)
  | int (n : Int)
  | floatLit (raw : String)
  | str (s : String)
  | list (xs : List PyVal)
  | dict (kvs : List (String × PyVal))

/-- JSON whitespace. -/
def jsonWs (c : Char) : Bool := c = ' ' ∨ c = '\t' ∨ c = '\n' ∨ c = '\r'

def skipJsonWs (s : List Char) : List Char := s.dropWhile jsonWs

/-- Hexadecimal digit value. -/
def hexVal (c : Char) : Option Nat :=
  if c.isDigit then some (c.toNat - 48)
  else if 'a' ≤ c ∧ c ≤ 'f' then some (c.toNat - 87)
  else if 'A' ≤ c ∧ c ≤ 'F' then some (c.toNat - 55)
  else none

/-- JSON string body (after the opening quote): standard escapes, `\uXXXX`
as a single code unit (surrogate pairing elided — no theorem below touches
it), raw control characters rejected as `json.loads` (strict mode) does. -/
def parseJsonString : List Char → List Char → Option (String × List Char)
  | _, [] => none
  | acc, c :: rest =>
    if c = '"' then some (⟨acc.reverse⟩, rest)
    else if c = '\\' then
      match rest with
      | [] => none
      | e :: rest2 =>
        if e = '"' then parseJsonString ('"' :: acc) rest2
        else if e = '\\' then parseJsonString ('\\' :: acc) rest2
        else if e = '/' then parseJsonString ('/' :: acc) rest2
        else if e = 'b' then parseJsonString ('\x08' :: acc) rest2
        else if e = 'f' then parseJsonString ('\x0c' :: acc) rest2
        else if e = 'n' then parseJsonString ('\n' :: acc) rest2
        else if e = 'r' then parseJsonString ('\r' :: acc) rest2
        else if e = 't' then parseJsonString ('\t' :: acc) rest2
        else if e = 'u' then
          match rest2 with
          | h1 :: h2 :: h3 :: h4 :: rest3 =>
            match hexVal h1, hexVal h2, hexVal h3, hexVal h4 with
            | some a, some b, some c2, some d =>
              parseJsonString (Char.ofNat (((a * 16 + b) * 16 + c2) * 16 + d) :: acc) rest3
            | _, _, _, _ => none
          | _ => none
        else none
    else if c.toNat < 32 then none
    else parseJsonString (c :: acc) rest

def digitsToInt (ds : List Char) : Int :=
  ds.foldl (fun acc c => acc * 10 + ((c.toNat : Int) - 48)) 0

/-- JSON number: integer literals become Python `int`s, anything with a
fraction or exponent becomes a float (kept as its literal text). -/
def parseNumber (s : List Char) : Option (PyVal × List Char) :=
  let p := match s with
    | '-' :: t => (true, t)
    | _ => (false, s)
  let neg := p.1
  let s1 := p.2
  let ds := s1.takeWhile Char.isDigit
  let r1 := s1.dropWhile Char.isDigit
  if ds = [] then none
  else if ds.length > 1 ∧ ds.headD '0' = '0' then none
  else
    let fr : Option (Bool × List Char) := match r1 with
      | '.' :: t =>
        if t.takeWhile Char.isDigit = [] then none
        else some (true, t.dropWhile Char.isDigit)
      | _ => some (false, r1)
    match fr with
    | none => none
    | some (hasFrac, r2) =>
      let ex : Option (Bool × List Char) := match r2 with
        | c :: t =>
          if c = 'e' ∨ c = 'E' then
            let r3 := match t with
              | s2 :: t2 => if s2 = '+' ∨ s2 = '-' then t2 else t
              | [] => t
            if r3.takeWhile Char.isDigit = [] then none
            else some (true, r3.dropWhile Char.isDigit)
          else some (false, r2)
        | [] => some (false, r2)
      match ex with
      | none => none
      | some (hasExp, rest) =>
        if ¬hasFrac ∧ ¬hasExp then
          some (PyVal.int ((if neg then -1 else 1) * digitsToInt ds), rest)
        else
          some (PyVal.floatLit ⟨s.take (s.length - rest.length)⟩, rest)

/-- Python `dict` insertion while building an object: a duplicate key keeps
its first position but takes the later value. -/
def dictInsert (kvs : List (String × PyVal)) (k : String) (v : PyVal) :
    List (String × PyVal) :=
  if kvs.any (fun p => p.1 == k) then
    kvs.map (fun p => if p.1 == k then (k, v) else p)
  else kvs ++ [(k, v)]

mutual

/-- One JSON value (with leading whitespace), `json.loads` grammar including
the CPython extensions `NaN`/`Infinity`/`-Infinity`.  Fuel bounds the
recursion depth; `jsonLoads` supplies more than the input length can use. -/
def parseValue : Nat → List Char → Option (PyVal × List Char)
  | 0, _ => none
  | fuel + 1, s0 =>
    let s := skipJsonWs s0
    match s with
    | [] => none
    | c :: rest =>
      if c = 'n' then
        if pyStartsWith "null".data s then some (.null, s.drop 4) else none
      else if c = 't' then
        if pyStartsWith "true".data s then some (.bool true, s.drop 4) else none
      else if c = 'f' then
        if pyStartsWith "false".data s then some (.bool false, s.drop 5) else none
      else if c = 'N' then
        if pyStartsWith "NaN".data s then some (.floatLit "NaN", s.drop 3) else none
      else if c = 'I' then
        if pyStartsWith "Infinity".data s then some (.floatLit "Infinity", s.drop 8)
        else none
      else if c = '"' then (parseJsonString [] rest).map (fun p => (.str p.1, p.2))
      else if c = '[' then
        match skipJsonWs rest with
        | ']' :: r2 => some (.list [], r2)
        | r => parseArrayItems fuel r []
      else if c = '{' then
        match skipJsonWs rest with
        | '}' :: r2 => some (.dict [], r2)
        | r => parseObjectItems fuel r []
      else if c = '-' ∧ pyStartsWith "-Infinity".data s then
        some (.floatLit "-Infinity", s.drop 9)
      else if c = '-' ∨ c.isDigit then parseNumber s
      else none

/-- Array elements after `[` (first element not yet parsed). -/
def parseArrayItems : Nat → List Char → List PyVal → Option (PyVal × List Char)
  | 0, _, _ => none
  | fuel + 1, s, acc =>
    match parseValue fuel s with
    | none => none
    | some (v, r) =>
      match skipJsonWs r with
      | ',' :: r2 => parseArrayItems fuel r2 (v :: acc)
      | ']' :: r2 => some (.list (v :: acc).reverse, r2)
      | _ => none

/-- Object members after `{` (first member not yet parsed). -/
def parseObjectItems : Nat → List Char → List (String × PyVal) →
    Option (PyVal × List Char)
  | 0, _, _ => none
  | fuel + 1, s, acc =>
    match skipJsonWs s with
    | '"' :: rest =>
      match parseJsonString [] rest with
      | none => none
      | some (k, r) =>
        match skipJsonWs r with
        | ':' :: r2 =>
          match parseValue fuel r2 with
          | none => none
          | some (v, r3) =>
            match skipJsonWs r3 with
            | ',' :: r4 => parseObjectItems fuel r4 (dictInsert acc k v)
            | '}' :: r4 => some (.dict (dictInsert acc k v), r4)
            | _ => none
        | _ => none
    | _ => none

end

/-- `json.loads(s)`: parse one value and require only whitespace after it;
`none` models a raised `json.JSONDecodeError`. -/
def jsonLoads (s : List Char) : Option PyVal :=
  match parseValue (2 * s.length + 4) s with
  | none => none
  | some (v, rest) => if skipJsonWs rest = [] then some v else none

/-- Python `element == needle` for a `str` needle: only a `str` with the
same text compares equal. -/
def pyValEqStr (x : PyVal) (needle : String) : Bool :=
  match x with
  | .str t => t == needle
  | _ => false

/-- Python `needle in v` for a `str` needle: key membership on a dict,
element equality on a list, substring on a str; every other type raises
`TypeError`. -/
def pyIn (needle : String) (v : PyVal) : Except String Bool :=
  match v with
  | .str s => .ok (pyContains needle.data s.data)
  | .list xs => .ok (xs.any (fun x => pyValEqStr x needle))
  | .dict kvs => .ok (kvs.any (fun p => p.1 == needle))
  | .null => .error "TypeError: argument of type NoneType is not iterable"
  | .bool _ => .error "TypeError: argument of type bool is not iterable"
  | .int _ => .error "TypeError: argument of type int is not iterable"
  | .floatLit _ => .error "TypeError: argument of type float is not iterable"

/-- The capture groups of `re.findall(r"```tool\n([\s\S]*?)```", text)`:
repeatedly find the next opener, then the nearest closing fence, and
continue after it.  (The opener contains no closing fence and cannot
overlap itself, so this two-step scan finds exactly the regex's matches.) -/
def toolBlocks : Nat → List Char → List (List Char)
  | 0, _ => []
  | fuel + 1, s =>
    match pyFind "```tool\n".data s with
    | none => []
    | some i =>
      let after := s.drop (i + 8)
      match pyFind "```".data after with
      | none => []
      | some j => after.take j :: toolBlocks fuel (after.drop (j + 3))

def extract_tool_blocks (text : String) : List String :=
  (toolBlocks (text.data.length + 1) text.data).map (fun b => ⟨b⟩)

/-- The `for block in tool_blocks` loop of `extract_tool_calls`:
`json.loads(block.strip())`; a `JSONDecodeError` is swallowed by the
`except` and the loop continues; any other exception — in particular the
`TypeError` that `in` raises on a non-container value — propagates and
aborts the whole call. -/
def extractLoop : List String → List PyVal → Except String (List PyVal)
  | [], acc => .ok acc.reverse
  | b :: rest, acc =>
    match jsonLoads (pyStrip b.data) with
    | none => extractLoop rest acc
    | some v =>
      match pyIn "tool" v with
      | .error e => .error e
      | .ok false => extractLoop rest acc
      | .ok true =>
        match pyIn "params" v with
        | .error e => .error e
        | .ok false => extractLoop rest acc
        | .ok true => extractLoop rest (v :: acc)

/-- `extract_tool_calls(text)`; `Except.error` models an uncaught exception
escaping the function. -/
def extract_tool_calls (text : String) : Except String (List PyVal) :=
  extractLoop (extract_tool_blocks text) []

/-- What C9 claims the function returns: exactly the `tool` blocks whose
content parses as a JSON *object* containing both keys, in document order,
with every other block silently skipped and extraction never aborted. -/
def extract_tool_calls_claimed (text : String) : List PyVal :=
  (extract_tool_blocks text).filterMap (fun b =>
    match jsonLoads (pyStrip b.data) with
    | some (PyVal.dict kvs) =>
      if kvs.any (fun p => p.1 == "tool") && kvs.any (fun p => p.1 == "params") then
        some (PyVal.dict kvs)
      else none
    | _ => none)

/-! ## C9 — non-object JSON breaks the claimed contract -/

/-- Counterexample to C9 as stated, in both directions: a block holding the
valid JSON `1` raises an uncaught `TypeError` (aborting extraction, so a
later well-formed block is lost), and a block holding the JSON string
`"tool params"` is *accepted* although it is no object — Python's `in`
does substring search on it. -/
theorem extract_tool_calls_counterexample :
    extract_tool_calls
        "```tool\n1\n```\n```tool\n\x7b\"tool\": \"sys_info\", \"params\": \x7b\x7d\x7d\n```" =
      Except.error "TypeError: argument of type int is not iterable" ∧
    extract_tool_calls_claimed
        "```tool\n1\n```\n```tool\n\x7b\"tool\": \"sys_info\", \"params\": \x7b\x7d\x7d\n```" =
      [PyVal.dict [("tool", PyVal.str "sys_info"), ("params", PyVal.dict [])]] ∧
    extract_tool_calls "```tool\n\"tool params\"\n```" =
      Except.ok [PyVal.str "tool params"] ∧
    extract_tool_calls_claimed "```tool\n\"tool params\"\n```" = [] :=
  ⟨rfl, rfl, rfl, rfl⟩

/-- Does processing this block raise an uncaught exception, and with which
message?  (`none`: the block is skipped or kept without error.) -/
def blockError (b : String) : Option String :=
  match jsonLoads (pyStrip b.data) with
  | none => none
  | some v =>
    match pyIn "tool" v with
    | .error e => some e
    | .ok false => none
    | .ok true =>
      match pyIn "params" v with
      | .error e => some e
      | .ok _ => none

/-- The parsed value this block contributes when both membership tests
succeed. -/
def blockKeeps (b : String) : Option PyVal :=
  match jsonLoads (pyStrip b.data) with
  | none => none
  | some v =>
    match pyIn "tool" v, pyIn "params" v with
    | .ok true, .ok true => some v
    | _, _ => none

/-- C9 amended, stated as a standalone description: if some block raises
(its JSON parses to a value with no membership test), the whole call aborts
with the first such block's `TypeError`; otherwise the result is exactly
the blocks whose parsed JSON passes Python's `in` test for both `"tool"`
and `"params"` — key membership for objects, but also substring search for
strings and element search for arrays — in document order. -/
def extract_tool_calls_amended (text : String) : Except String (List PyVal) :=
  match (extract_tool_blocks text).findSome? blockError with
  | some e => .error e
  | none => .ok ((extract_tool_blocks text).filterMap blockKeeps)

lemma extractLoop_spec (bs : List String) : ∀ acc : List PyVal,
    extractLoop bs acc =
      match bs.findSome? blockError with
      | some e => .error e
      | none => .ok (acc.reverse ++ bs.filterMap blockKeeps) := by
  induction bs with
  | nil => intro acc; simp [extractLoop]
  | cons b rest ih =>
    intro acc
    rw [extractLoop]
    rcases hj : jsonLoads (pyStrip b.data) with _ | v
    · simp only [List.findSome?_cons, List.filterMap_cons, blockError, blockKeeps, hj]
      exact ih acc
    · rcases ht : pyIn "tool" v with e | bt
      · simp [List.findSome?_cons, blockError, hj, ht]
      · rcases bt with _ | _
        · simp only [List.findSome?_cons, List.filterMap_cons, blockError, blockKeeps,
            hj, ht]
          exact ih acc
        · rcases hp : pyIn "params" v with e | bp
          · simp [List.findSome?_cons, blockError, hj, ht, hp]
          · rcases bp with _ | _
            · simp only [List.findSome?_cons, List.filterMap_cons, blockError,
                blockKeeps, hj, ht, hp]
              exact ih acc
            · simp only [List.findSome?_cons, List.filterMap_cons, blockError,
                blockKeeps, hj, ht, hp]
              rw [ih (v :: acc)]
              rcases List.findSome? blockError rest with _ | e
              · simp
              · simp

/-- C9 amended: `extract_tool_calls` equals the amended description for
every input text. -/
theorem extract_tool_calls_amended_correct (text : String) :
    extract_tool_calls text = extract_tool_calls_amended text := by
  unfold extract_tool_calls extract_tool_calls_amended
  rw [extractLoop_spec]
  rcases (extract_tool_blocks text).findSome? blockError with _ | e
  · simp
  · simp

/-! ## `ollamacode/client.py` — `OllamaCode.send_request` -/

/-- The configuration values `send_request` and its helpers read, with the
source's `config.get` defaults. -/
structure ClientConfig where
  maxFollowupDepth : Nat := 2
  processFollowupCommands : Bool := false
  systemPrompt : String := ""
  model : String := ""
  contextWindow : Int := 0
  ollamaEndpoint : String := ""

/-- The client's mutable state: `self.conversation_history` (a plain list of
role/content pairs in this class) and `self.last_response`. -/
structure ClientState where
  conversationHistory : List (String × String)
  lastResponse : String
  deriving DecidableEq, Repr

/-- Observable side effects of one `send_request` activation, in order. -/
inductive Effect where
  | printWarning (maxDepth : Nat)
  | printOther
  | httpGet (url : String)
  | httpPost (url : String)
  | sysExit (code : Int)
  | processActions (text : String)
  deriving DecidableEq, Repr

/-- The outside world `send_request` interacts with: connection check
outcome, the model list, the POST status, the streamed reply (a function of
the messages sent), and — abstracting the internal
`process_bash_and_tools` / `format_results_for_followup` pair, whose
behaviour C6 does not depend on — the follow-up prompt produced from a
response (`none`: no results to share, or an empty formatted prompt). -/
structure ClientEnv where
  connected : Bool
  availableModels : List String
  postStatus : Nat
  modelReply : List (String × String) → String
  followupPrompt : String → Option String

/-- `OllamaCode._trim_history`: drop the oldest user/assistant pair while
over the character budget and more than 2 messages remain. -/
def trimAux (cw : Int) : List (String × String) → Int → List (String × String)
  | [], _ => []
  | [m], _ => [m]
  | m1 :: m2 :: rest, total =>
    if total > cw ∧ 2 < (m1 :: m2 :: rest).length then
      trimAux cw rest (total - (m1.2.length : Int) - (m2.2.length : Int))
    else m1 :: m2 :: rest

def trim_history (cw : Int) (hist : List (String × String)) : List (String × String) :=
  trimAux cw hist ((hist.map (fun m => (m.2.length : Int))).sum)

/-- `OllamaCode.send_request(prompt, is_followup, followup_depth)`.
Returns the response text (`none` when the source calls `sys.exit`), the
state after the call, and the effect trace.  The depth guard sits first,
before the connection check, the model validation, the POST, any history
update and any action processing — exactly as in the source. -/
def send_request (cfg : ClientConfig) (env : ClientEnv) (st : ClientState)
    (prompt : String) (isFollowup : Bool) (depth : Nat) :
    Option String × ClientState × List Effect :=
  if _h : cfg.maxFollowupDepth < depth then
    (some "Follow-up limit reached. Please continue with a new prompt.", st,
      [Effect.printWarning cfg.maxFollowupDepth])
  else if ¬env.connected then
    (none, st, [.httpGet (cfg.ollamaEndpoint ++ "/api/tags"), .printOther, .sysExit 1])
  else
    let effs0 : List Effect := [.httpGet (cfg.ollamaEndpoint ++ "/api/tags"),
      .httpGet (cfg.ollamaEndpoint ++ "/api/tags")]
    if ¬(env.availableModels = [] ∨ cfg.model ∈ env.availableModels) then
      (none, st, effs0 ++ [.printOther, .sysExit 1])
    else
      let messages :=
        (if cfg.systemPrompt ≠ "" then [("system", cfg.systemPrompt)] else [])
          ++ st.conversationHistory ++ [("user", prompt)]
      let effs1 := effs0 ++ [Effect.httpPost (cfg.ollamaEndpoint ++ "/api/chat")]
      if env.postStatus ≠ 200 then
        (none, st, effs1 ++ [.printOther, .sysExit 1])
      else
        let fullResponse := env.modelReply messages
        let st1 :=
          if ¬isFollowup then
            { st with
              conversationHistory :=
                trim_history cfg.contextWindow
                  (st.conversationHistory ++
                    [("user", prompt), ("assistant", fullResponse)]) }
          else st
        let st2 :=
          if ¬isFollowup ∨ depth ≤ 1 then { st1 with lastResponse := fullResponse }
          else st1
        let shouldProcess :=
          ¬isFollowup ∨ (cfg.processFollowupCommands ∧ depth < cfg.maxFollowupDepth)
        if shouldProcess then
          match env.followupPrompt fullResponse with
          | some fp =>
            let r := send_request cfg env st2 fp true (depth + 1)
            match r.1 with
            | none => (none, r.2.1, effs1 ++ [.processActions fullResponse] ++ r.2.2)
            | some fres =>
              if ¬isFollowup ∨ depth ≤ 1 then
                (some (fullResponse ++ "\n\n" ++ fres),
                  { r.2.1 with lastResponse := fullResponse ++ "\n\n" ++ fres },
                  effs1 ++ [.processActions fullResponse] ++ r.2.2)
              else
                (some fullResponse, r.2.1,
                  effs1 ++ [.processActions fullResponse] ++ r.2.2)
          | none => (some fullResponse, st2, effs1 ++ [.processActions fullResponse])
        else (some fullResponse, st2, effs1)
  termination_by cfg.maxFollowupDepth + 1 - depth
  decreasing_by omega

/-! ## C6 — the follow-up depth guard -/

/-- C6: whenever `followup_depth` exceeds the configured maximum,
`send_request` returns the fixed limit message with the state unchanged and
a bare warning print as its only effect — no network request, no history
modification, no command or tool execution. -/
theorem send_request_depth_guard (cfg : ClientConfig) (env : ClientEnv)
    (st : ClientState) (prompt : String) (isFollowup : Bool) (depth : Nat)
    (hdepth : cfg.maxFollowupDepth < depth) :
    send_request cfg env st prompt isFollowup depth =
      (some "Follow-up limit reached. Please continue with a new prompt.", st,
        [Effect.printWarning cfg.maxFollowupDepth]) ∧
      (send_request cfg env st prompt isFollowup depth).2.1 = st ∧
      ∀ e ∈ (send_request cfg env st prompt isFollowup depth).2.2,
        (∀ u, e ≠ Effect.httpGet u ∧ e ≠ Effect.httpPost u ∧
          e ≠ Effect.processActions u) ∧ ∀ c, e ≠ Effect.sysExit c := by
  have h : send_request cfg env st prompt isFollowup depth =
      (some "Follow-up limit reached. Please continue with a new prompt.", st,
        [Effect.printWarning cfg.maxFollowupDepth]) := by
    unfold send_request
    rw [dif_pos hdepth]
  refine ⟨h, by rw [h], ?_⟩
  rw [h]
  intro e he
  simp only [List.mem_singleton] at he
  subst he
  refine ⟨fun u => ⟨?_, ?_, ?_⟩, fun c => ?_⟩ <;> intro hcon <;> cases hcon

/-- Witness for C6: depth 3 against the default maximum 2, with a live
environment oracle — the fixed message comes back with no network effect. -/
theorem send_request_depth_guard_witness :
    (2 : Nat) < 3 ∧
      send_request { maxFollowupDepth := 2 }
          ⟨true, ["m"], 200, fun _ => "reply", fun _ => none⟩
          ⟨[], ""⟩ "results" true 3 =
        (some "Follow-up limit reached. Please continue with a new prompt.",
          (⟨[], ""⟩ : ClientState), [Effect.printWarning 2]) :=
  ⟨by decide,
    (send_request_depth_guard { maxFollowupDepth := 2 }
      ⟨true, ["m"], 200, fun _ => "reply", fun _ => none⟩
      ⟨[], ""⟩ "results" true 3 (by decide)).1⟩
